import Mathlib

/-!
Verification development for the DFIR-Log-Sorter repository.

The repository contains two implementations of the same engine:
  * `src/app/dfir_log_sorter.py` — the desktop (tkinter) application, and
  * `src/web/app.py` — the Flask web application.

This file gives a shallow embedding of the timestamp-normalization engine
(`LogEntry._parse_timestamp` in both files), the sorting operations
(`DFIRLogSorter.sort_ascending` / `sort_descending`, `sort_entries`),
the CSV snapshot writers (`auto_save_logs_to_csv`, `save_logs_to_file`),
the report writer (`save_ai_analysis_to_file`), entry insertion
(`add_log_entry`, `add_entry`) and entry deletion
(`delete_selected_entry`), and proves the frozen specification claims
about them.

Modelling conventions:
  * Python `datetime` values are modelled by `DT` (naive calendar fields)
    and `PyDT` (a `DT` plus an optional UTC-offset in seconds, `none` for
    naive values).  `datetime.now()` is passed in explicitly as a `now`
    parameter.
  * Python string processing is done on `List Char`; `String`-level
    wrappers are provided at the API boundary.  `str.strip` is modelled
    over the ASCII whitespace characters Python strips.
  * `datetime.strptime` is modelled after CPython's `_strptime` regexes
    (`%Y` is exactly four digits, `%m`/`%d`/`%H`/`%M`/`%S` accept one or
    two digits with the CPython range alternations, `%f` is one to six
    digits zero-padded on the right, a literal space in the format
    matches one or more whitespace characters) followed by calendar
    validation as performed by the `datetime` constructor.
  * `datetime.fromisoformat` is modelled after CPython 3.11+ on the
    dashed profile `YYYY-MM-DD[<sep>HH[:MM[:SS[.f{1,6}]]]][offset]`
    with `offset` one of `Z`/`z` or `±HH[[:]MM[[:]SS]]`; the exotic
    ISO-8601 inputs CPython 3.11 additionally accepts (basic date
    format, week dates) are outside the profile exercised here.
  * The degraded-parse warning that both implementations print before
    returning `datetime.now()` is modelled as the `Bool` component of
    the parse result, `true` exactly when the warning is printed.
-/

set_option maxRecDepth 40000

deriving instance DecidableEq for Except

/-- A naive Python `datetime`: calendar date plus wall-clock time. -/
structure DT where
  year : Nat
  month : Nat
  day : Nat
  hour : Nat
  minute : Nat
  second : Nat
  micro : Nat
deriving DecidableEq, Repr

/-- A Python `datetime` as produced by the parsers: a naive value
(`off = none`) or an aware value with a fixed UTC offset in seconds. -/
structure PyDT where
  dt : DT
  off : Option Int
deriving DecidableEq, Repr

/-- Wrap a naive datetime. -/
def PyDT.naive (d : DT) : PyDT := ⟨d, none⟩

/-- Leap-year test, as in Python's `calendar`/`datetime`. -/
def isLeap (y : Nat) : Bool := (y % 4 = 0 && y % 100 ≠ 0) || y % 400 = 0

/-- Number of days in a month, as validated by the `datetime` constructor. -/
def daysInMonth (y m : Nat) : Nat :=
  if m = 2 then (if isLeap y then 29 else 28)
  else if m = 4 ∨ m = 6 ∨ m = 9 ∨ m = 11 then 30
  else 31

/-- Days in the years before year `y` (Python's `_days_before_year`). -/
def daysBeforeYear (y : Nat) : Nat :=
  365 * (y - 1) + (y - 1) / 4 - (y - 1) / 100 + (y - 1) / 400

/-- Days in year `y` before month `m` (Python's `_days_before_month`). -/
def daysBeforeMonth (y m : Nat) : Nat :=
  [0, 31, 59, 90, 120, 151, 181, 212, 243, 273, 304, 334].getD (m - 1) 0
    + (if 2 < m && isLeap y then 1 else 0)

/-- Proleptic-Gregorian ordinal of a date (Python's `toordinal`). -/
def ordinalOf (y m d : Nat) : Nat := daysBeforeYear y + daysBeforeMonth y m + d

/-- Absolute position of an (aware or naive) datetime in microseconds,
with the UTC offset applied; this is how Python compares two aware
datetimes. -/
def pyInstant (p : PyDT) : Int :=
  (((ordinalOf p.dt.year p.dt.month p.dt.day : Int) * 86400
      + p.dt.hour * 3600 + p.dt.minute * 60 + p.dt.second) * 1000000
    + p.dt.micro) - (p.off.getD 0) * 1000000

/-- Lexicographic comparison of naive datetimes, field by field; this is
how Python compares two naive datetimes. -/
def dtCompare (a b : DT) : Ordering :=
  (compare a.year b.year).then ((compare a.month b.month).then
    ((compare a.day b.day).then ((compare a.hour b.hour).then
      ((compare a.minute b.minute).then ((compare a.second b.second).then
        (compare a.micro b.micro))))))

/-- Python comparison of two datetimes: naive pairs compare by calendar
fields, aware pairs compare as instants, and a mixed pair raises
`TypeError`, modelled as `none`. -/
def pyCompare (p q : PyDT) : Option Ordering :=
  match p.off, q.off with
  | none, none => some (dtCompare p.dt q.dt)
  | some _, some _ => some (compare (pyInstant p) (pyInstant q))
  | _, _ => none

/-- The characters removed by Python's `str.strip()` (ASCII profile). -/
def isPyWs (c : Char) : Bool :=
  c = ' ' || c = '\t' || c = '\n' || c = '\r' || c = '\x0b' || c = '\x0c'

/-- `str.strip()` on a character list. -/
def trimL (cs : List Char) : List Char :=
  ((cs.dropWhile isPyWs).reverse.dropWhile isPyWs).reverse

/-- `str.replace('T', ' ')` on a character list. -/
def replaceTL (cs : List Char) : List Char :=
  cs.map (fun c => if c = 'T' then ' ' else c)

/-- Decimal digit test. -/
def isDig (c : Char) : Bool := '0' ≤ c && c ≤ '9'

/-- Value of a decimal digit. -/
def digVal (c : Char) : Nat := c.toNat - '0'.toNat

/-- Value of a digit string (most significant first). -/
def digitsVal (cs : List Char) : Nat := cs.foldl (fun a c => 10 * a + digVal c) 0

/-- One `strptime` format directive.  `lit` is a literal character
(matched case-insensitively, as CPython compiles the format with
`IGNORECASE`); `ws` is a literal whitespace in the format, which CPython
rewrites to `\s+`. -/
inductive Tok where
  | lit (c : Char)
  | ws
  | Y | m | d | H | M | S | f
deriving DecidableEq, Repr

/-- Record of the fields captured while matching one format. -/
structure Caps where
  y : Nat := 1900
  mo : Nat := 1
  dy : Nat := 1
  h : Nat := 0
  mi : Nat := 0
  s : Nat := 0
  us : Nat := 0
deriving DecidableEq, Repr

/-- Take exactly `n` digits from the front. -/
def takeDigits : Nat → List Char → Option (Nat × List Char)
  | 0, cs => some (0, cs)
  | n + 1, c :: cs =>
      if isDig c then
        match takeDigits n cs with
        | some (v, rest) => some (digVal c * 10 ^ n + v, rest)
        | none => none
      else none
  | _ + 1, [] => none

/-- CPython's two-digit-else-one-digit numeric directive: try a
two-digit match whose value lies in `[lo2, hi2]`, else a one-digit match
whose value lies in `[lo1, hi1]`.  This reproduces the `TimeRE`
alternations (`%m` = `1[0-2]|0[1-9]|[1-9]`, `%d` =
`3[01]|[12]\d|0[1-9]|[1-9]`, `%H` = `2[0-3]|[0-1]\d|\d`, `%M`/`%S` =
`[0-5]\d|\d`). -/
def num2or1 (lo2 hi2 lo1 hi1 : Nat) : List Char → Option (Nat × List Char)
  | c1 :: c2 :: cs =>
      if isDig c1 && isDig c2 && lo2 ≤ digVal c1 * 10 + digVal c2
          && digVal c1 * 10 + digVal c2 ≤ hi2 then
        some (digVal c1 * 10 + digVal c2, cs)
      else if isDig c1 && lo1 ≤ digVal c1 && digVal c1 ≤ hi1 then
        some (digVal c1, c2 :: cs)
      else none
  | [c1] =>
      if isDig c1 && lo1 ≤ digVal c1 && digVal c1 ≤ hi1 then
        some (digVal c1, [])
      else none
  | [] => none

/-- Take one to six fractional-second digits, zero-padding to
microseconds as CPython does. -/
def takeFrac (cs : List Char) : Option (Nat × List Char) :=
  let digs := (cs.takeWhile isDig).take 6
  if digs = [] then none
  else some (digitsVal digs * 10 ^ (6 - digs.length), cs.drop digs.length)

/-- Match one directive against the input, updating the accumulator. -/
def runTok (t : Tok) (cs : List Char) (a : Caps) : Option (Caps × List Char) :=
  match t with
  | .lit c =>
      match cs with
      | c' :: rest => if c'.toLower = c.toLower then some (a, rest) else none
      | [] => none
  | .ws =>
      match cs with
      | c' :: rest =>
          if isPyWs c' then some (a, rest.dropWhile isPyWs) else none
      | [] => none
  | .Y => (takeDigits 4 cs).map (fun p => ({ a with y := p.1 }, p.2))
  | .m => (num2or1 1 12 1 9 cs).map (fun p => ({ a with mo := p.1 }, p.2))
  | .d => (num2or1 1 31 1 9 cs).map (fun p => ({ a with dy := p.1 }, p.2))
  | .H => (num2or1 0 23 0 9 cs).map (fun p => ({ a with h := p.1 }, p.2))
  | .M => (num2or1 0 59 0 9 cs).map (fun p => ({ a with mi := p.1 }, p.2))
  | .S => (num2or1 0 59 0 9 cs).map (fun p => ({ a with s := p.1 }, p.2))
  | .f => (takeFrac cs).map (fun p => ({ a with us := p.1 }, p.2))

/-- Match a whole format against the input. -/
def runToks : List Tok → List Char → Caps → Option Caps
  | [], cs, a => if cs = [] then some a else none
  | t :: ts, cs, a =>
      match runTok t cs a with
      | some (a', rest) => runToks ts rest a'
      | none => none

/-- Calendar validation performed by the `datetime` constructor after a
successful pattern match (`ValueError` on failure makes `strptime` fail
for this format). -/
def validDT (a : Caps) : Bool :=
  1 ≤ a.y && a.y ≤ 9999 && 1 ≤ a.mo && a.mo ≤ 12
    && 1 ≤ a.dy && a.dy ≤ daysInMonth a.y a.mo
    && a.h ≤ 23 && a.mi ≤ 59 && a.s ≤ 59

/-- `datetime.strptime(input, fmt)`: the whole (already stripped) input
must be consumed, and the captured fields must form a valid datetime. -/
def runFmt (f : List Tok) (cs : List Char) : Option DT :=
  match runToks f cs {} with
  | some a => if validDT a then some ⟨a.y, a.mo, a.dy, a.h, a.mi, a.s, a.us⟩ else none
  | none => none

/-- The `for fmt in formats: try ... except ValueError: continue` loop:
first format that fully matches wins. -/
def tryFormats : List (List Tok) → List Char → Option DT
  | [], _ => none
  | f :: fs, cs =>
      match runFmt f cs with
      | some v => some v
      | none => tryFormats fs cs

/-- Format `"%Y-%m-%d-%H-%M-%S"`. -/
def fmtYmdHyphens : List Tok :=
  [.Y, .lit '-', .m, .lit '-', .d, .lit '-', .H, .lit '-', .M, .lit '-', .S]

/-- Format `"%Y-%m-%d %H:%M:%S"`. -/
def fmtYmdSpace : List Tok :=
  [.Y, .lit '-', .m, .lit '-', .d, .ws, .H, .lit ':', .M, .lit ':', .S]

/-- Format `"%Y/%m/%d %H:%M:%S"`. -/
def fmtYmdSlash : List Tok :=
  [.Y, .lit '/', .m, .lit '/', .d, .ws, .H, .lit ':', .M, .lit ':', .S]

/-- Format `"%d/%m/%Y %H:%M:%S"`. -/
def fmtDmySlash : List Tok :=
  [.d, .lit '/', .m, .lit '/', .Y, .ws, .H, .lit ':', .M, .lit ':', .S]

/-- Format `"%m/%d/%Y %H:%M:%S"`. -/
def fmtMdySlash : List Tok :=
  [.m, .lit '/', .d, .lit '/', .Y, .ws, .H, .lit ':', .M, .lit ':', .S]

/-- Format `"%Y-%m-%d %H:%M:%S.%f"`. -/
def fmtYmdSpaceFrac : List Tok :=
  [.Y, .lit '-', .m, .lit '-', .d, .ws, .H, .lit ':', .M, .lit ':', .S, .lit '.', .f]

/-- Format `"%Y-%m-%dT%H:%M:%S"`. -/
def fmtYmdT : List Tok :=
  [.Y, .lit '-', .m, .lit '-', .d, .lit 'T', .H, .lit ':', .M, .lit ':', .S]

/-- Format `"%Y-%m-%dT%H:%M:%S.%fZ"`. -/
def fmtYmdTFracZ : List Tok :=
  [.Y, .lit '-', .m, .lit '-', .d, .lit 'T', .H, .lit ':', .M, .lit ':', .S,
   .lit '.', .f, .lit 'Z']

/-- Format `"%d-%m-%Y %H:%M:%S"`. -/
def fmtDmyHyphen : List Tok :=
  [.d, .lit '-', .m, .lit '-', .Y, .ws, .H, .lit ':', .M, .lit ':', .S]

/-- Format `"%Y-%m-%dT%H:%M"` (HTML datetime-local, web app only). -/
def fmtYmdTshort : List Tok :=
  [.Y, .lit '-', .m, .lit '-', .d, .lit 'T', .H, .lit ':', .M]

/-- The desktop application's format list, in source order
(`src/app/dfir_log_sorter.py`, lines 34-44). -/
def appFormats : List (List Tok) :=
  [fmtYmdHyphens, fmtYmdSpace, fmtYmdSlash, fmtDmySlash, fmtMdySlash,
   fmtYmdSpaceFrac, fmtYmdT, fmtYmdTFracZ, fmtDmyHyphen]

/-- The web application's format list, in source order
(`src/web/app.py`, lines 39-46). -/
def webFormats : List (List Tok) :=
  [fmtYmdHyphens, fmtYmdSpace, fmtYmdTshort, fmtYmdT, fmtYmdSlash, fmtDmySlash]

/-- Shape test for a six-character `±HH:MM` suffix. -/
def isOff6 (cs : List Char) : Bool :=
  match cs with
  | [s, a, b, c, d, e] =>
      (s = '+' || s = '-') && isDig a && isDig b && (c = ':') && isDig d && isDig e
  | _ => false

/-- Shape test for a five-character `±HHMM` suffix. -/
def isOff5 (cs : List Char) : Bool :=
  match cs with
  | [s, a, b, d, e] =>
      (s = '+' || s = '-') && isDig a && isDig b && isDig d && isDig e
  | _ => false

/-- A string the stripper removes wholesale when it ends the input:
`Z`, `±HH:MM` or `±HHMM`. -/
def isTzSuffixL (off : List Char) : Bool :=
  off == ['Z'] || isOff6 off || isOff5 off

/-- The trailing-timezone stripper of the desktop fallback
(`re.sub(r'[+-]\d{2}:?\d{2}$|Z$', '', ...)`,
`src/app/dfir_log_sorter.py` line 55): removes a final `Z`, a final
`±HH:MM`, or a final `±HHMM` (the optional-colon alternative the regex
also accepts), and otherwise leaves the string alone.  The regex is
anchored at the end, so at most one removal happens, the six-character
form being preferred since its match starts further left. -/
def stripTzL (cs : List Char) : List Char :=
  if cs.getLast? = some 'Z' then cs.take (cs.length - 1)
  else if isOff6 (cs.drop (cs.length - 6)) then cs.take (cs.length - 6)
  else if isOff5 (cs.drop (cs.length - 5)) then cs.take (cs.length - 5)
  else cs

/-- Parse a `fromisoformat` UTC offset (the whole remaining input):
`Z`/`z`, or `±HH`, `±HH:MM`, `±HHMM`, `±HH:MM:SS`, `±HHMMSS`; the result
is the signed offset in seconds.  The offset must be strictly less than
24 hours in magnitude, as `datetime.timezone` requires. -/
def parseIsoOff (cs : List Char) : Option Int :=
  match cs with
  | ['Z'] => some 0
  | ['z'] => some 0
  | s :: h1 :: h2 :: rest =>
      if (s = '+' || s = '-') && isDig h1 && isDig h2 then
        let hv := digVal h1 * 10 + digVal h2
        let sign : Int := if s = '-' then -1 else 1
        let fin : Nat → Nat → Option Int := fun mv sv =>
          if hv ≤ 23 && mv ≤ 59 && sv ≤ 59 then
            some (sign * (hv * 3600 + mv * 60 + sv))
          else none
        match rest with
        | [] => fin 0 0
        | ':' :: m1 :: m2 :: rest2 =>
            if isDig m1 && isDig m2 then
              match rest2 with
              | [] => fin (digVal m1 * 10 + digVal m2) 0
              | ':' :: s1 :: s2 :: [] =>
                  if isDig s1 && isDig s2 then
                    fin (digVal m1 * 10 + digVal m2) (digVal s1 * 10 + digVal s2)
                  else none
              | _ => none
            else none
        | m1 :: m2 :: rest2 =>
            if isDig m1 && isDig m2 then
              match rest2 with
              | [] => fin (digVal m1 * 10 + digVal m2) 0
              | s1 :: s2 :: [] =>
                  if isDig s1 && isDig s2 then
                    fin (digVal m1 * 10 + digVal m2) (digVal s1 * 10 + digVal s2)
                  else none
              | _ => none
            else none
        | _ => none
      else none
  | _ => none

/-- Parse a `fromisoformat` time-of-day with optional offset:
`HH[:MM[:SS[.f]]][offset]`, the fraction having at least one digit (only
the first six count, as in CPython 3.11+). -/
def parseIsoTime (cs : List Char) : Option (Nat × Nat × Nat × Nat × Option Int) :=
  match cs with
  | h1 :: h2 :: rest =>
      if isDig h1 && isDig h2 then
        let hv := digVal h1 * 10 + digVal h2
        let finT : Nat → Nat → Nat → List Char → Option (Nat × Nat × Nat × Nat × Option Int) :=
          fun mv sv uv tail =>
            if hv ≤ 23 && mv ≤ 59 && sv ≤ 59 then
              match tail with
              | [] => some (hv, mv, sv, uv, none)
              | _ => (parseIsoOff tail).map (fun o => (hv, mv, sv, uv, some o))
            else none
        match rest with
        | ':' :: m1 :: m2 :: rest2 =>
            if isDig m1 && isDig m2 then
              let mv := digVal m1 * 10 + digVal m2
              match rest2 with
              | ':' :: s1 :: s2 :: rest3 =>
                  if isDig s1 && isDig s2 then
                    let sv := digVal s1 * 10 + digVal s2
                    match rest3 with
                    | '.' :: fr =>
                        let digs := fr.takeWhile isDig
                        if digs = [] then none
                        else
                          finT mv sv
                            (digitsVal (digs.take 6) * 10 ^ (6 - (digs.take 6).length))
                            (fr.drop digs.length)
                    | ',' :: fr =>
                        let digs := fr.takeWhile isDig
                        if digs = [] then none
                        else
                          finT mv sv
                            (digitsVal (digs.take 6) * 10 ^ (6 - (digs.take 6).length))
                            (fr.drop digs.length)
                    | tail => finT mv sv 0 tail
                  else none
              | tail => finT mv 0 0 tail
            else none
        | tail => finT 0 0 0 tail
      else none
  | _ => none

/-- `datetime.fromisoformat` (CPython 3.11+ behaviour) on the dashed
profile `YYYY-MM-DD[<sep>HH[:MM[:SS[.f]]]][offset]`, where the separator
between date and time may be any single character.  Returns a naive
datetime when no offset is present and an aware one otherwise. -/
def pyFromIso (cs : List Char) : Option PyDT :=
  match cs with
  | y1 :: y2 :: y3 :: y4 :: '-' :: m1 :: m2 :: '-' :: d1 :: d2 :: rest =>
      if isDig y1 && isDig y2 && isDig y3 && isDig y4 && isDig m1 && isDig m2
          && isDig d1 && isDig d2 then
        let y := digVal y1 * 1000 + digVal y2 * 100 + digVal y3 * 10 + digVal y4
        let mo := digVal m1 * 10 + digVal m2
        let dy := digVal d1 * 10 + digVal d2
        if 1 ≤ y && 1 ≤ mo && mo ≤ 12 && 1 ≤ dy && dy ≤ daysInMonth y mo then
          match rest with
          | [] => some ⟨⟨y, mo, dy, 0, 0, 0, 0⟩, none⟩
          | _ :: timePart =>
              (parseIsoTime timePart).map
                (fun r => ⟨⟨y, mo, dy, r.1, r.2.1, r.2.2.1, r.2.2.2.1⟩, r.2.2.2.2⟩)
        else none
      else none
  | _ => none

/-- The desktop `LogEntry._parse_timestamp`
(`src/app/dfir_log_sorter.py` lines 31-60): try the nine formats on the
stripped input; failing that, strip a trailing timezone annotation,
replace `T` by a space and try `fromisoformat`; failing that, print a
warning (the `Bool`) and return `datetime.now()` (the `now` argument). -/
def appParseCore (cs : List Char) (now : DT) : PyDT × Bool :=
  match tryFormats appFormats (trimL cs) with
  | some d => (PyDT.naive d, false)
  | none =>
      match pyFromIso (replaceTL (stripTzL (trimL cs))) with
      | some p => (p, false)
      | none => (PyDT.naive now, true)

/-- The web `LogEntry._parse_timestamp` (`src/web/app.py` lines 37-59):
try the six formats on the stripped input; failing that, replace `T` by
a space in the raw input and try `fromisoformat` (note: no timezone
stripping and no strip on this path); failing that, print a warning and
return `datetime.now()`. -/
def webParseCore (cs : List Char) (now : DT) : PyDT × Bool :=
  match tryFormats webFormats (trimL cs) with
  | some d => (PyDT.naive d, false)
  | none =>
      match pyFromIso (replaceTL cs) with
      | some p => (p, false)
      | none => (PyDT.naive now, true)

/-- String-level wrapper for the desktop parser. -/
def appParseTimestamp (s : String) (now : DT) : PyDT × Bool :=
  appParseCore s.data now

/-- String-level wrapper for the web parser. -/
def webParseTimestamp (s : String) (now : DT) : PyDT × Bool :=
  webParseCore s.data now

/-- A log entry as held in memory by either application (the web variant
additionally carries a UUID, which plays no role in the claims below). -/
structure LogEntry where
  timestamp : String
  description : String
  severity : String
  parsed_time : PyDT
deriving DecidableEq, Repr

/-- Construct a desktop `LogEntry` (its constructor normalizes the
timestamp immediately). -/
def mkAppLogEntry (ts desc sev : String) (now : DT) : LogEntry :=
  ⟨ts, desc, sev, (appParseCore ts.data now).1⟩

/-- Construct a web `LogEntry`. -/
def mkWebLogEntry (ts desc sev : String) (now : DT) : LogEntry :=
  ⟨ts, desc, sev, (webParseCore ts.data now).1⟩

/-- Sort key of a naive datetime: the lexicographic tuple of its fields.
Ordering `DTKey` values with the `Prod.Lex` linear order agrees with
Python's comparison of naive datetimes. -/
abbrev DTKey := ℕ ×ₗ ℕ ×ₗ ℕ ×ₗ ℕ ×ₗ ℕ ×ₗ ℕ ×ₗ ℕ

/-- Lexicographic key of a naive datetime. -/
def DT.key (t : DT) : DTKey :=
  toLex (t.year, toLex (t.month, toLex (t.day, toLex (t.hour,
    toLex (t.minute, toLex (t.second, t.micro))))))

/-- Sort key of an entry on an all-naive timeline. -/
def keyNaive (e : LogEntry) : DTKey := e.parsed_time.dt.key

/-- Sort key of an entry on an all-aware timeline (Python compares aware
datetimes as instants). -/
def keyAware (e : LogEntry) : Int := pyInstant e.parsed_time

/-- Stable ascending insertion: the new element goes before the first
element whose key is not smaller, so earlier-inserted elements stay in
front of equal keys. -/
def insOrdA {α κ : Type} [LinearOrder κ] (k : α → κ) (x : α) : List α → List α
  | [] => [x]
  | y :: ys => if k y < k x then y :: insOrdA k x ys else x :: y :: ys

/-- Stable ascending insertion sort.  Python's `list.sort` /
`sorted(key=...)` is Timsort, which is stable; a stable sort's output is
uniquely determined by the key order and the input order, so this
insertion sort computes the same list. -/
def insSortAsc {α κ : Type} [LinearOrder κ] (k : α → κ) : List α → List α
  | [] => []
  | x :: xs => insOrdA k x (insSortAsc k xs)

/-- Stable descending insertion, matching `list.sort(reverse=True)`:
elements with equal keys retain their original relative order (they are
not reversed). -/
def insOrdD {α κ : Type} [LinearOrder κ] (k : α → κ) (x : α) : List α → List α
  | [] => [x]
  | y :: ys => if k x < k y then y :: insOrdD k x ys else x :: y :: ys

/-- Stable descending insertion sort (`list.sort(reverse=True)`). -/
def insSortDesc {α κ : Type} [LinearOrder κ] (k : α → κ) : List α → List α
  | [] => []
  | x :: xs => insOrdD k x (insSortDesc k xs)

/-- Every entry of the timeline carries a naive parsed time. -/
def allNaive (l : List LogEntry) : Bool :=
  l.all (fun e => e.parsed_time.off.isNone)

/-- Ascending sort by `parsed_time`, the model of the desktop
`sort_ascending` (`list.sort()` via `LogEntry.__lt__`), of the web
`/api/sort` route (`log_entries.sort(key=lambda x: x.parsed_time)`) and
of the `sorted(..., key=lambda x: x.parsed_time)` calls in the CSV
writers.  On an all-naive timeline Python compares the naive field
tuples; on an all-aware timeline it compares instants; on a mixed
timeline `list.sort` raises `TypeError` (caught by the callers) — the
model returns the list unchanged there, and every theorem below about
sorting restricts itself to all-naive timelines. -/
def sortAscL (l : List LogEntry) : List LogEntry :=
  if allNaive l then insSortAsc keyNaive l
  else if l.all (fun e => e.parsed_time.off.isSome) then insSortAsc keyAware l
  else l

/-- Descending sort by `parsed_time`, the model of the desktop
`sort_descending` (`list.sort(reverse=True)`); same conventions as
`sortAscL`. -/
def sortDescL (l : List LogEntry) : List LogEntry :=
  if allNaive l then insSortDesc keyNaive l
  else if l.all (fun e => e.parsed_time.off.isSome) then insSortDesc keyAware l
  else l

/-- Does `csv.writer` (QUOTE_MINIMAL) quote this field?  It quotes when
the field contains the delimiter, the quote character, or a character of
the line terminator `\r\n`. -/
def csvNeedsQuote (s : String) : Bool :=
  s.data.any (fun c => c = ',' || c = '"' || c = '\r' || c = '\n')

/-- Double every `"` in the character list (CSV quote escaping). -/
def dqL (cs : List Char) : List Char :=
  cs.foldr (fun c acc => if c = '"' then '"' :: '"' :: acc else c :: acc) []

/-- Double every `"` in a string. -/
def dqS (s : String) : String := ⟨dqL s.data⟩

/-- One CSV field as written by the desktop app's `csv.writer`. -/
def appCsvField (s : String) : String :=
  if csvNeedsQuote s then "\"" ++ dqS s ++ "\"" else s

/-- One CSV row as written by the desktop app's `csv.writer`
(`writer.writerow([entry.timestamp, entry.severity, entry.description])`,
line terminator `\r\n`). -/
def appCsvRow (e : LogEntry) : String :=
  appCsvField e.timestamp ++ "," ++ appCsvField e.severity ++ ","
    ++ appCsvField e.description ++ "\r\n"

/-- Content of the snapshot CSV written by the desktop
`auto_save_logs_to_csv` (`src/app/dfir_log_sorter.py` lines 1895-1924):
header row, then one row per entry in ascending `parsed_time` order. -/
def appCsvContent (l : List LogEntry) : String :=
  "Timestamp,Severity,Description\r\n"
    ++ String.join ((sortAscL l).map appCsvRow)

/-- State of the single fixed-name snapshot file
(`investigation_logs.csv`) after the desktop `auto_save_logs_to_csv`
runs: with no entries the file is deleted (if present); otherwise it is
rewritten from scratch with all current entries, whatever it held
before. -/
def appAutoSaveCsv (l : List LogEntry) (_prior : Option String) : Option String :=
  if l = [] then none else some (appCsvContent l)

/-- One CSV row as written by the web `save_logs_to_file`: every field
is quoted, and only the description has its quotes doubled
(`src/web/app.py` lines 127-132). -/
def webCsvRow (e : LogEntry) : String :=
  "\"" ++ e.timestamp ++ "\",\"" ++ e.severity ++ "\",\""
    ++ dqS e.description ++ "\"\n"

/-- Content of the snapshot CSV written by the web `save_logs_to_file`. -/
def webCsvContent (l : List LogEntry) : String :=
  "Timestamp,Severity,Description\n"
    ++ String.join ((sortAscL l).map webCsvRow)

/-- State of the snapshot file after the web `save_logs_to_file`
(`src/web/app.py` lines 114-134): with no entries the function returns
`None` without touching the file, leaving any prior snapshot in place;
otherwise it overwrites the file with all current entries. -/
def webSaveLogsToFile (l : List LogEntry) (prior : Option String) : Option String :=
  if l = [] then prior else some (webCsvContent l)

/-- Zero-padded two-digit decimal (`strftime` `%m`, `%d`, `%H`, `%M`,
`%S`). -/
def pad2 (n : Nat) : String := if n < 10 then "0" ++ toString n else toString n

/-- Zero-padded four-digit decimal (`strftime` `%Y` for the years in
range here). -/
def pad4 (n : Nat) : String :=
  if n < 10 then "000" ++ toString n
  else if n < 100 then "00" ++ toString n
  else if n < 1000 then "0" ++ toString n
  else toString n

/-- The 80-character `=` banner line used in the analysis report. -/
def eqBar : String := ⟨List.replicate 80 '='⟩

/-- Report filename: `ai_analysis_<YYYYMMDD_HHMMSS>.txt`, built from
`datetime.now().strftime('%Y%m%d_%H%M%S')` — one-second granularity. -/
def aiFileName (now : DT) : String :=
  "ai_analysis_" ++ pad4 now.year ++ pad2 now.month ++ pad2 now.day ++ "_"
    ++ pad2 now.hour ++ pad2 now.minute ++ pad2 now.second ++ ".txt"

/-- The `Generated: ...` banner line
(`datetime.now().strftime('%Y-%m-%d %H:%M:%S')`). -/
def genLine (now : DT) : String :=
  "Generated: " ++ pad4 now.year ++ "-" ++ pad2 now.month ++ "-"
    ++ pad2 now.day ++ " " ++ pad2 now.hour ++ ":" ++ pad2 now.minute ++ ":"
    ++ pad2 now.second

/-- Everything the report file holds before the verbatim analysis
text. -/
def aiBannerPre (name : String) (now : DT) : String :=
  eqBar ++ "\n" ++ "AI Security Analysis: " ++ name ++ "\n" ++ eqBar ++ "\n"
    ++ genLine now ++ "\n" ++ eqBar ++ "\n" ++ "\n"

/-- Everything the report file holds after the verbatim analysis text. -/
def aiBannerPost : String :=
  "\n" ++ "\n" ++ eqBar ++ "\n" ++ "End of AI Analysis" ++ "\n" ++ eqBar

/-- Content of an analysis report file: the `'\n'.join(content)` of
`save_ai_analysis_to_file` (identical in both applications). -/
def aiContent (name text : String) (now : DT) : String :=
  String.intercalate "\n"
    [eqBar, "AI Security Analysis: " ++ name, eqBar, genLine now, eqBar, "",
     text, "", eqBar, "End of AI Analysis", eqBar]

/-- The investigation directory as a small file system: an association
list from filename to content. -/
def fsGet : List (String × String) → String → Option String
  | [], _ => none
  | (q, w) :: rest, p => if q = p then some w else fsGet rest p

/-- Writing a file (`open(path, 'w')`): replaces the content if the path
exists, creates it otherwise. -/
def fsSet : List (String × String) → String → String → List (String × String)
  | [], p, v => [(p, v)]
  | (q, w) :: rest, p, v =>
      if q = p then (p, v) :: rest else (q, w) :: fsSet rest p v

/-- `save_ai_analysis_to_file(name, text)` (`src/app/dfir_log_sorter.py`
lines 1926-1960 and `src/web/app.py` lines 136-164): empty text returns
`None` and writes nothing; otherwise the banner-wrapped text is written
to `ai_analysis_<now>.txt` and that path is returned. -/
def saveAiAnalysisToFile (name text : String) (now : DT)
    (fs : List (String × String)) : Option String × List (String × String) :=
  if text = "" then (none, fs)
  else (some (aiFileName now), fsSet fs (aiFileName now) (aiContent name text now))

/-- The desktop severity dropdown label to severity mapping
(`severity_map.get(severity_text, "Info")`). -/
def severityFromLabel (label : String) : String :=
  if label = "🔴 Critical" then "Critical"
  else if label = "🟠 High" then "High"
  else if label = "🟡 Medium" then "Medium"
  else if label = "🔵 Low" then "Low"
  else "Info"

/-- The desktop `add_log_entry` (`src/app/dfir_log_sorter.py` lines
860-909): strip both fields, reject a blank timestamp, then a blank
description, otherwise append a freshly parsed entry. -/
def appAddLogEntry (tsRaw descRaw sevLabel : String) (l : List LogEntry)
    (now : DT) : Except String (List LogEntry) :=
  let ts : String := ⟨trimL tsRaw.data⟩
  let desc : String := ⟨trimL descRaw.data⟩
  if ts = "" then .error "Please enter a timestamp"
  else if desc = "" then .error "Please enter a description"
  else .ok (l ++ [mkAppLogEntry ts desc (severityFromLabel sevLabel) now])

/-- The timeline after the desktop add operation: unchanged when the
validation rejects the input. -/
def appAddRoute (tsRaw descRaw sevLabel : String) (l : List LogEntry)
    (now : DT) : List LogEntry :=
  match appAddLogEntry tsRaw descRaw sevLabel l now with
  | .ok l' => l'
  | .error _ => l

/-- The web `POST /api/entries` handler `add_entry` (`src/web/app.py`
lines 214-258): strip both fields, reject a blank timestamp, a blank
description, and a stripped description shorter than five characters,
otherwise append a freshly parsed entry. -/
def webAddEntry (tsRaw descRaw sev : String) (l : List LogEntry)
    (now : DT) : Except String (List LogEntry) :=
  let ts : String := ⟨trimL tsRaw.data⟩
  let desc : String := ⟨trimL descRaw.data⟩
  if ts = "" then .error "Timestamp is required"
  else if desc = "" then .error "Description is required"
  else if desc.length < 5 then .error "Description must be at least 5 characters long"
  else .ok (l ++ [mkWebLogEntry ts desc sev now])

/-- The session timeline after the web add operation: unchanged when the
validation rejects the input. -/
def webAddRoute (tsRaw descRaw sev : String) (l : List LogEntry)
    (now : DT) : List LogEntry :=
  match webAddEntry tsRaw descRaw sev l now with
  | .ok l' => l'
  | .error _ => l

/-- The deletion loop of the desktop `delete_selected_entry`
(`src/app/dfir_log_sorter.py` lines 1589-1594): scan the stored entries
from index 0, delete the first whose timestamp and description both
equal the selected row's values, and stop. -/
def deleteFirstMatch (ts desc : String) : List LogEntry → List LogEntry
  | [] => []
  | e :: es =>
      if e.timestamp = ts ∧ e.description = desc then es
      else e :: deleteFirstMatch ts desc es


section SortLemmas

variable {α κ : Type} [LinearOrder κ] (k : α → κ)

/-- Inserting permutes to consing. -/
theorem insOrdA_perm (x : α) : ∀ l : List α, List.Perm (insOrdA k x l) (x :: l) := by
  intro l
  induction l with
  | nil => simp [insOrdA]
  | cons y ys ih =>
      by_cases h : k y < k x
      · simp only [insOrdA, if_pos h]
        exact (ih.cons y).trans (List.Perm.swap x y ys)
      · simp [insOrdA, if_neg h]

/-- The ascending sort permutes the input. -/
theorem insSortAsc_perm : ∀ l : List α, List.Perm (insSortAsc k l) l := by
  intro l
  induction l with
  | nil => simp [insSortAsc]
  | cons x xs ih => exact (insOrdA_perm k x (insSortAsc k xs)).trans (ih.cons x)

/-- Inserting descendingly permutes to consing. -/
theorem insOrdD_perm (x : α) : ∀ l : List α, List.Perm (insOrdD k x l) (x :: l) := by
  intro l
  induction l with
  | nil => simp [insOrdD]
  | cons y ys ih =>
      by_cases h : k x < k y
      · simp only [insOrdD, if_pos h]
        exact (ih.cons y).trans (List.Perm.swap x y ys)
      · simp [insOrdD, if_neg h]

/-- The descending sort permutes the input. -/
theorem insSortDesc_perm : ∀ l : List α, List.Perm (insSortDesc k l) l := by
  intro l
  induction l with
  | nil => simp [insSortDesc]
  | cons x xs ih => exact (insOrdD_perm k x (insSortDesc k xs)).trans (ih.cons x)

/-- Inserting into an ascending-sorted list keeps it sorted. -/
theorem insOrdA_sorted (x : α) :
    ∀ l : List α, l.Sorted (fun a b => k a ≤ k b) →
      (insOrdA k x l).Sorted (fun a b => k a ≤ k b) := by
  intro l
  induction l with
  | nil => intro _; simp [insOrdA]
  | cons y ys ih =>
      intro hs
      rw [List.sorted_cons] at hs
      by_cases h : k y < k x
      · simp only [insOrdA, if_pos h]
        rw [List.sorted_cons]
        refine ⟨?_, ih hs.2⟩
        intro b hb
        rcases List.mem_cons.mp ((insOrdA_perm k x ys).mem_iff.mp hb) with hb | hb
        · exact hb ▸ le_of_lt h
        · exact hs.1 b hb
      · simp only [insOrdA, if_neg h]
        rw [List.sorted_cons]
        refine ⟨?_, List.sorted_cons.mpr hs⟩
        intro b hb
        rcases List.mem_cons.mp hb with hb | hb
        · exact hb ▸ le_of_not_lt h
        · exact le_trans (le_of_not_lt h) (hs.1 b hb)

/-- The ascending sort sorts. -/
theorem insSortAsc_sorted :
    ∀ l : List α, (insSortAsc k l).Sorted (fun a b => k a ≤ k b) := by
  intro l
  induction l with
  | nil => simp [insSortAsc]
  | cons x xs ih => exact insOrdA_sorted k x (insSortAsc k xs) ih

/-- Inserting into a descending-sorted list keeps it sorted. -/
theorem insOrdD_sorted (x : α) :
    ∀ l : List α, l.Sorted (fun a b => k b ≤ k a) →
      (insOrdD k x l).Sorted (fun a b => k b ≤ k a) := by
  intro l
  induction l with
  | nil => intro _; simp [insOrdD]
  | cons y ys ih =>
      intro hs
      rw [List.sorted_cons] at hs
      by_cases h : k x < k y
      · simp only [insOrdD, if_pos h]
        rw [List.sorted_cons]
        refine ⟨?_, ih hs.2⟩
        intro b hb
        rcases List.mem_cons.mp ((insOrdD_perm k x ys).mem_iff.mp hb) with hb | hb
        · exact hb ▸ le_of_lt h
        · exact hs.1 b hb
      · simp only [insOrdD, if_neg h]
        rw [List.sorted_cons]
        refine ⟨?_, List.sorted_cons.mpr hs⟩
        intro b hb
        rcases List.mem_cons.mp hb with hb | hb
        · exact hb ▸ le_of_not_lt h
        · exact le_trans (hs.1 b hb) (le_of_not_lt h)

/-- The descending sort sorts (non-increasing keys). -/
theorem insSortDesc_sorted :
    ∀ l : List α, (insSortDesc k l).Sorted (fun a b => k b ≤ k a) := by
  intro l
  induction l with
  | nil => simp [insSortDesc]
  | cons x xs ih => exact insOrdD_sorted k x (insSortDesc k xs) ih

/-- Ascending stability, insertion step, selected element: the element
goes in front of every element the selection predicate keeps. -/
theorem insOrdA_filter_pos (x : α) (p : α → Bool) (hx : p x = true)
    (hk : ∀ a, p a = true → k a = k x) :
    ∀ l : List α, (insOrdA k x l).filter p = x :: l.filter p := by
  intro l
  induction l with
  | nil => simp [insOrdA, hx]
  | cons y ys ih =>
      by_cases h : k y < k x
      · have hy : p y = false := by
          cases hpy : p y with
          | false => rfl
          | true => exact absurd (hk y hpy ▸ h) (lt_irrefl _)
        simp [insOrdA, if_pos h, List.filter_cons, hy, ih]
      · simp [insOrdA, if_neg h, List.filter_cons, hx]

/-- Ascending stability, insertion step, unselected element. -/
theorem insOrdA_filter_neg (x : α) (p : α → Bool) (hx : p x = false) :
    ∀ l : List α, (insOrdA k x l).filter p = l.filter p := by
  intro l
  induction l with
  | nil => simp [insOrdA, hx]
  | cons y ys ih =>
      by_cases h : k y < k x
      · simp [insOrdA, if_pos h, List.filter_cons, ih]
      · simp [insOrdA, if_neg h, List.filter_cons, hx]

/-- Stability of the ascending sort: the subsequence selected by any
predicate that only keeps elements of one common key is untouched. -/
theorem insSortAsc_filter (p : α → Bool)
    (hp : ∀ a b, p a = true → p b = true → k a = k b) :
    ∀ l : List α, (insSortAsc k l).filter p = l.filter p := by
  intro l
  induction l with
  | nil => simp [insSortAsc]
  | cons x xs ih =>
      cases hx : p x with
      | true =>
          rw [insSortAsc, insOrdA_filter_pos k x p hx (fun a ha => hp a x ha hx), ih]
          simp [List.filter_cons, hx]
      | false =>
          rw [insSortAsc, insOrdA_filter_neg k x p hx, ih]
          simp [List.filter_cons, hx]

/-- Descending stability, insertion step, selected element. -/
theorem insOrdD_filter_pos (x : α) (p : α → Bool) (hx : p x = true)
    (hk : ∀ a, p a = true → k a = k x) :
    ∀ l : List α, (insOrdD k x l).filter p = x :: l.filter p := by
  intro l
  induction l with
  | nil => simp [insOrdD, hx]
  | cons y ys ih =>
      by_cases h : k x < k y
      · have hy : p y = false := by
          cases hpy : p y with
          | false => rfl
          | true => exact absurd (hk y hpy ▸ h) (lt_irrefl _)
        simp [insOrdD, if_pos h, List.filter_cons, hy, ih]
      · simp [insOrdD, if_neg h, List.filter_cons, hx]

/-- Descending stability, insertion step, unselected element. -/
theorem insOrdD_filter_neg (x : α) (p : α → Bool) (hx : p x = false) :
    ∀ l : List α, (insOrdD k x l).filter p = l.filter p := by
  intro l
  induction l with
  | nil => simp [insOrdD, hx]
  | cons y ys ih =>
      by_cases h : k x < k y
      · simp [insOrdD, if_pos h, List.filter_cons, ih]
      · simp [insOrdD, if_neg h, List.filter_cons, hx]

/-- Stability of the descending sort (`reverse=True` keeps equal keys in
their original order). -/
theorem insSortDesc_filter (p : α → Bool)
    (hp : ∀ a b, p a = true → p b = true → k a = k b) :
    ∀ l : List α, (insSortDesc k l).filter p = l.filter p := by
  intro l
  induction l with
  | nil => simp [insSortDesc]
  | cons x xs ih =>
      cases hx : p x with
      | true =>
          rw [insSortDesc, insOrdD_filter_pos k x p hx (fun a ha => hp a x ha hx), ih]
          simp [List.filter_cons, hx]
      | false =>
          rw [insSortDesc, insOrdD_filter_neg k x p hx, ih]
          simp [List.filter_cons, hx]

/-- Inserting an element no larger than everything just conses it. -/
theorem insOrdA_of_le (x : α) :
    ∀ l : List α, (∀ y ∈ l, k x ≤ k y) → insOrdA k x l = x :: l := by
  intro l
  induction l with
  | nil => intro _; rfl
  | cons y ys _ =>
      intro h
      have hny : ¬ k y < k x := not_lt.mpr (h y (List.mem_cons_self y ys))
      simp [insOrdA, if_neg hny]

/-- Sorting an already ascending-sorted list is the identity. -/
theorem insSortAsc_of_sorted :
    ∀ l : List α, l.Sorted (fun a b => k a ≤ k b) → insSortAsc k l = l := by
  intro l
  induction l with
  | nil => intro _; rfl
  | cons x xs ih =>
      intro hs
      rw [List.sorted_cons] at hs
      rw [insSortAsc, ih hs.2, insOrdA_of_le k x xs hs.1]

/-- Inserting an element greater than everything appends it. -/
theorem insOrdA_of_all_lt (x : α) :
    ∀ l : List α, (∀ y ∈ l, k y < k x) → insOrdA k x l = l ++ [x] := by
  intro l
  induction l with
  | nil => intro _; rfl
  | cons y ys ih =>
      intro h
      have hy : k y < k x := h y (List.mem_cons_self y ys)
      rw [insOrdA, if_pos hy, ih (fun z hz => h z (List.mem_cons_of_mem y hz))]
      rfl

/-- Ascending insertion commutes with a final element that is not
smaller than the inserted one. -/
theorem insOrdA_append_last (x y : α) (h : ¬ k y < k x) :
    ∀ m : List α, insOrdA k x (m ++ [y]) = insOrdA k x m ++ [y] := by
  intro m
  induction m with
  | nil => simp [insOrdA, if_neg h]
  | cons z rest ih =>
      by_cases hz : k z < k x
      · simp [insOrdA, if_pos hz, ih]
      · simp [insOrdA, if_neg hz]

/-- On a sorted list containing no element of the inserted element's
key, descending insertion into the reverse is the reverse of ascending
insertion. -/
theorem insOrdD_reverse (x : α) :
    ∀ m : List α, m.Sorted (fun a b => k a ≤ k b) → (∀ y ∈ m, k y ≠ k x) →
      insOrdD k x m.reverse = (insOrdA k x m).reverse := by
  intro m
  induction m using List.reverseRecOn with
  | nil => intro _ _; rfl
  | append_singleton m' y ih =>
      intro hs hne
      have hsplit :
          m'.Sorted (fun a b => k a ≤ k b) ∧ ∀ a ∈ m', ∀ b ∈ [y], k a ≤ k b := by
        have hp := List.pairwise_append.mp hs
        exact ⟨hp.1, hp.2.2⟩
      rw [List.reverse_append, List.reverse_singleton, List.singleton_append]
      by_cases h : k x < k y
      · have hna : ¬ k y < k x := asymm h
        rw [insOrdD, if_pos h,
          ih hsplit.1 (fun z hz => hne z (List.mem_append_left _ hz)),
          insOrdA_append_last k x y hna m', List.reverse_append,
          List.reverse_singleton, List.singleton_append]
      · have hyx : k y < k x :=
          lt_of_le_of_ne (le_of_not_lt h)
            (hne y (List.mem_append_right _ (List.mem_singleton_self y)))
        have hall : ∀ z ∈ m' ++ [y], k z < k x := by
          intro z hz
          rcases List.mem_append.mp hz with hz | hz
          · exact lt_of_le_of_lt
              (hsplit.2 z hz y (List.mem_singleton_self y)) hyx
          · rw [List.mem_singleton.mp hz]; exact hyx
        rw [insOrdA_of_all_lt k x (m' ++ [y]) hall, insOrdD, if_neg h,
          List.reverse_append, List.reverse_append, List.reverse_singleton,
          List.singleton_append, List.reverse_singleton, List.singleton_append]

/-- With pairwise-distinct keys, the stable descending sort is exactly
the reverse of the stable ascending sort. -/
theorem insSortDesc_eq_reverse :
    ∀ l : List α, (l.map k).Nodup → insSortDesc k l = (insSortAsc k l).reverse := by
  intro l
  induction l with
  | nil => intro _; rfl
  | cons x xs ih =>
      intro hnd
      rw [List.map_cons, List.nodup_cons] at hnd
      rw [insSortDesc, ih hnd.2, insSortAsc,
        insOrdD_reverse k x (insSortAsc k xs) (insSortAsc_sorted k xs)]
      intro z hz
      have hzx : z ∈ xs := (insSortAsc_perm k xs).mem_iff.mp hz
      intro hk
      exact hnd.1 (hk ▸ List.mem_map_of_mem k hzx)

/-- The descending sort of an ascending-sorted list is, with
pairwise-distinct keys, its reverse (key distinctness survives the
ascending sort because the sort permutes its input). -/
theorem insSortDesc_insSortAsc_eq_reverse :
    ∀ l : List α, (l.map k).Nodup →
      insSortDesc k (insSortAsc k l) = (insSortAsc k l).reverse := by
  intro l hnd
  have hperm : List.Perm ((insSortAsc k l).map k) (l.map k) :=
    (insSortAsc_perm k l).map k
  rw [insSortDesc_eq_reverse k (insSortAsc k l) (hperm.nodup_iff.mpr hnd),
    insSortAsc_of_sorted k (insSortAsc k l) (insSortAsc_sorted k l)]

end SortLemmas

/-- Reducing the guarded ascending sort on an all-naive timeline. -/
theorem sortAscL_naive (l : List LogEntry) (h : allNaive l = true) :
    sortAscL l = insSortAsc keyNaive l := by
  simp [sortAscL, h]

/-- Reducing the guarded descending sort on an all-naive timeline. -/
theorem sortDescL_naive (l : List LogEntry) (h : allNaive l = true) :
    sortDescL l = insSortDesc keyNaive l := by
  simp [sortDescL, h]

/-- Naiveness of all entries is preserved along a permutation. -/
theorem allNaive_of_perm (l₁ l₂ : List LogEntry) (hp : List.Perm l₁ l₂)
    (h : allNaive l₂ = true) : allNaive l₁ = true := by
  simp only [allNaive, List.all_eq_true] at h ⊢
  exact fun e he => h e (hp.mem_iff.mp he)

/-- The lexicographic key determines the naive datetime. -/
theorem DT.key_injective {a b : DT} (h : DT.key a = DT.key b) : a = b := by
  cases a
  cases b
  simp only [DT.key, toLex_inj, Prod.mk.injEq] at h
  obtain ⟨h1, h2, h3, h4, h5, h6, h7⟩ := h
  simp [h1, h2, h3, h4, h5, h6, h7]

/-- On naive entries the sort key determines `parsed_time`. -/
theorem parsedTime_eq_of_keyNaive_eq {a b : LogEntry}
    (ha : a.parsed_time.off = none) (hb : b.parsed_time.off = none)
    (h : keyNaive a = keyNaive b) : a.parsed_time = b.parsed_time := by
  have hdt : a.parsed_time.dt = b.parsed_time.dt := DT.key_injective h
  calc a.parsed_time = ⟨a.parsed_time.dt, a.parsed_time.off⟩ := rfl
    _ = ⟨b.parsed_time.dt, b.parsed_time.off⟩ := by rw [hdt, ha, hb]
    _ = b.parsed_time := rfl

/-- Distinct canonical times give distinct sort keys on an all-naive
timeline. -/
theorem nodup_keyNaive_of_nodup_parsedTime (l : List LogEntry)
    (hn : allNaive l = true)
    (h : (l.map (fun e => e.parsed_time)).Nodup) : (l.map keyNaive).Nodup := by
  have hmem : ∀ e ∈ l, e.parsed_time.off = none := by
    simp only [allNaive, List.all_eq_true, Option.isNone_iff_eq_none] at hn
    exact hn
  unfold List.Nodup at h ⊢
  rw [List.pairwise_map] at h ⊢
  exact h.imp_of_mem (fun {a b} ha hb hne hkey =>
    hne (parsedTime_eq_of_keyNaive_eq (hmem a ha) (hmem b hb) hkey))

/-- The format loop commits to the first fully matching format. -/
theorem tryFormats_eq_of_first (cs : List Char) (fs1 fs2 : List (List Tok))
    (f : List Tok) (v : DT) (h1 : ∀ g ∈ fs1, runFmt g cs = none)
    (hf : runFmt f cs = some v) :
    tryFormats (fs1 ++ f :: fs2) cs = some v := by
  induction fs1 with
  | nil => simp [tryFormats, hf]
  | cons g gs ih =>
      have hg : runFmt g cs = none := h1 g (List.mem_cons_self g gs)
      simp only [List.cons_append, tryFormats, hg]
      exact ih (fun g' hg' => h1 g' (List.mem_cons_of_mem g hg'))

/-- Sample wall-clock instant standing in for `datetime.now()`. -/
def sampleNow : DT := ⟨2025, 6, 1, 12, 0, 0, 0⟩

/-- Claim C1: timestamp normalization is total.  Both `_parse_timestamp`
implementations are embedded as total functions, mirroring the source
code in which the final bare `except` catches everything; whenever
neither the format loop nor the ISO fallback succeeds, both return the
current wall-clock instant, and the degraded flag (the printed warning)
is raised exactly then, so every `LogEntry` gets a defined
`parsed_time`. -/
theorem c1_normalization_total (s : String) (now : DT)
    (happ : tryFormats appFormats (trimL s.data) = none)
    (happIso : pyFromIso (replaceTL (stripTzL (trimL s.data))) = none)
    (hweb : tryFormats webFormats (trimL s.data) = none)
    (hwebIso : pyFromIso (replaceTL s.data) = none) :
    appParseTimestamp s now = (PyDT.naive now, true)
      ∧ webParseTimestamp s now = (PyDT.naive now, true) := by
  constructor
  · simp [appParseTimestamp, appParseCore, happ, happIso]
  · simp [webParseTimestamp, webParseCore, hweb, hwebIso]

/-- Witness for C1 at the spec's concrete unparseable input. -/
theorem c1_normalization_total_witness :
    appParseTimestamp "banana" sampleNow = (PyDT.naive sampleNow, true)
      ∧ webParseTimestamp "banana" sampleNow = (PyDT.naive sampleNow, true) :=
  c1_normalization_total "banana" sampleNow (by decide) (by decide) (by decide)
    (by decide)

/-- Claim C2: the parser tries the fixed format list in order and
commits to the first format that matches the entire trimmed string; in
particular `"15/01/2024 14:30:25"` resolves through `%d/%m/%Y %H:%M:%S`
(listed before `%m/%d/%Y %H:%M:%S` in the desktop list) to
15 January 2024 14:30:25 in both applications. -/
theorem c2_first_format_wins (cs : List Char) (fs1 fs2 : List (List Tok))
    (f : List Tok) (v : DT) (now : DT) (h1 : ∀ g ∈ fs1, runFmt g cs = none)
    (hf : runFmt f cs = some v) :
    tryFormats (fs1 ++ f :: fs2) cs = some v
      ∧ appParseTimestamp "15/01/2024 14:30:25" now
          = (PyDT.naive ⟨2024, 1, 15, 14, 30, 25, 0⟩, false)
      ∧ webParseTimestamp "15/01/2024 14:30:25" now
          = (PyDT.naive ⟨2024, 1, 15, 14, 30, 25, 0⟩, false) := by
  refine ⟨tryFormats_eq_of_first cs fs1 fs2 f v h1 hf, ?_, ?_⟩
  · have h : tryFormats appFormats (trimL ("15/01/2024 14:30:25".data))
        = some ⟨2024, 1, 15, 14, 30, 25, 0⟩ := by decide
    simp [appParseTimestamp, appParseCore, h]
  · have h : tryFormats webFormats (trimL ("15/01/2024 14:30:25".data))
        = some ⟨2024, 1, 15, 14, 30, 25, 0⟩ := by decide
    simp [webParseTimestamp, webParseCore, h]

/-- Witness for C2: in the desktop format list, the three formats listed
before `%d/%m/%Y %H:%M:%S` all fail on the ambiguous day-first string,
`%d/%m/%Y %H:%M:%S` matches it, and the loop returns its reading. -/
theorem c2_first_format_wins_witness :
    tryFormats appFormats ("15/01/2024 14:30:25".data)
        = some ⟨2024, 1, 15, 14, 30, 25, 0⟩
      ∧ appParseTimestamp "15/01/2024 14:30:25" sampleNow
          = (PyDT.naive ⟨2024, 1, 15, 14, 30, 25, 0⟩, false) := by
  have h := c2_first_format_wins ("15/01/2024 14:30:25".data)
    [fmtYmdHyphens, fmtYmdSpace, fmtYmdSlash]
    [fmtMdySlash, fmtYmdSpaceFrac, fmtYmdT, fmtYmdTFracZ, fmtDmyHyphen]
    fmtDmySlash ⟨2024, 1, 15, 14, 30, 25, 0⟩ sampleNow (by decide) (by decide)
  exact ⟨h.1, h.2.1⟩

/-- First sample entry of the spec's end-to-end test (§8). -/
def entryLow : LogEntry :=
  mkAppLogEntry "2024-01-15 10:00:00" "first observation" "Low" sampleNow

/-- Second sample entry of the spec's end-to-end test (§8). -/
def entryCrit : LogEntry :=
  mkAppLogEntry "2024-01-14 09:00:00" "second observation" "Critical" sampleNow

/-- Third sample entry of the spec's end-to-end test (§8); its
canonical time collides with `entryLow`'s. -/
def entryInfo : LogEntry :=
  mkAppLogEntry "2024-01-15 10:00:00" "third observation" "Info" sampleNow

/-- Claim C3: the ascending sort is stable.  On every all-naive timeline
the subsequence of entries sharing any fixed canonical time is left in
insertion order, and the spec's end-to-end example sorts to
[entry of 01-14, first 01-15 entry, second 01-15 entry]. -/
theorem c3_sort_ascending_stable :
    (∀ (l : List LogEntry) (t : PyDT), allNaive l = true →
        (sortAscL l).filter (fun e => e.parsed_time == t)
          = l.filter (fun e => e.parsed_time == t))
      ∧ sortAscL [entryLow, entryCrit, entryInfo]
          = [entryCrit, entryLow, entryInfo] := by
  constructor
  · intro l t hn
    rw [sortAscL_naive l hn]
    apply insSortAsc_filter
    intro a b ha hb
    have ha' : a.parsed_time = t := eq_of_beq ha
    have hb' : b.parsed_time = t := eq_of_beq hb
    rw [keyNaive, keyNaive, ha', hb']
  · decide

/-- Witness for C3: the stability clause applied to the two entries that
share the canonical time 2024-01-15 10:00:00. -/
theorem c3_sort_ascending_stable_witness :
    (sortAscL [entryLow, entryInfo]).filter
        (fun e => e.parsed_time == PyDT.naive ⟨2024, 1, 15, 10, 0, 0, 0⟩)
      = [entryLow, entryInfo].filter
        (fun e => e.parsed_time == PyDT.naive ⟨2024, 1, 15, 10, 0, 0, 0⟩) :=
  c3_sort_ascending_stable.1 [entryLow, entryInfo]
    (PyDT.naive ⟨2024, 1, 15, 10, 0, 0, 0⟩) (by decide)

/-- Counterexample to claim C4 as stated: `entryLow` and `entryInfo`
share one canonical time, and because `sort(reverse=True)` is stable it
keeps them in insertion order, so the descending sequence is not the
exact reverse of the ascending one. -/
theorem c4_not_exact_reverse_with_ties :
    sortDescL (sortAscL [entryLow, entryInfo])
      ≠ (sortAscL [entryLow, entryInfo]).reverse := by
  decide

/-- Claim C4, amended: sorting ascending, then descending, then
ascending preserves the entries (as a permutation); the descending pass
is the exact reverse of the ascending pass whenever no two entries share
a canonical time; and when entries do share one, the descending pass
keeps each group of tied entries in insertion order instead of
reversing it. -/
theorem c4_sort_reversal (l : List LogEntry) (hn : allNaive l = true) :
    List.Perm (sortAscL (sortDescL (sortAscL l))) l
      ∧ ((l.map (fun e => e.parsed_time)).Nodup →
          sortDescL (sortAscL l) = (sortAscL l).reverse)
      ∧ (∀ t : PyDT,
          (sortDescL (sortAscL l)).filter (fun e => e.parsed_time == t)
            = l.filter (fun e => e.parsed_time == t)) := by
  have hA : sortAscL l = insSortAsc keyNaive l := sortAscL_naive l hn
  have hnA : allNaive (insSortAsc keyNaive l) = true :=
    allNaive_of_perm _ l (insSortAsc_perm keyNaive l) hn
  have hD : sortDescL (sortAscL l) = insSortDesc keyNaive (insSortAsc keyNaive l) := by
    rw [hA, sortDescL_naive _ hnA]
  have hnD : allNaive (insSortDesc keyNaive (insSortAsc keyNaive l)) = true :=
    allNaive_of_perm _ _ (insSortDesc_perm keyNaive _) hnA
  refine ⟨?_, ?_, ?_⟩
  · rw [hD, sortAscL_naive _ hnD]
    exact (insSortAsc_perm keyNaive _).trans
      ((insSortDesc_perm keyNaive _).trans (insSortAsc_perm keyNaive l))
  · intro hnd
    rw [hD, hA]
    exact insSortDesc_insSortAsc_eq_reverse keyNaive l
      (nodup_keyNaive_of_nodup_parsedTime l hn hnd)
  · intro t
    have hp : ∀ a b : LogEntry, (a.parsed_time == t) = true →
        (b.parsed_time == t) = true → keyNaive a = keyNaive b := by
      intro a b ha hb
      have ha' : a.parsed_time = t := eq_of_beq ha
      have hb' : b.parsed_time = t := eq_of_beq hb
      rw [keyNaive, keyNaive, ha', hb']
    rw [hD, insSortDesc_filter keyNaive _ hp, insSortAsc_filter keyNaive _ hp]

/-- Witness for C4 at a two-entry timeline with distinct canonical
times: content is preserved and the descending pass is the exact
reverse. -/
theorem c4_sort_reversal_witness :
    List.Perm (sortAscL (sortDescL (sortAscL [entryLow, entryCrit])))
        [entryLow, entryCrit]
      ∧ sortDescL (sortAscL [entryLow, entryCrit])
          = (sortAscL [entryLow, entryCrit]).reverse :=
  ⟨(c4_sort_reversal [entryLow, entryCrit] (by decide)).1,
   (c4_sort_reversal [entryLow, entryCrit] (by decide)).2.1 (by decide)⟩

/-- Sample entry whose description needs CSV quoting. -/
def entryTricky : LogEntry :=
  mkAppLogEntry "2024-01-16 10:00:00" "evil, \"quoted\" payload" "High" sampleNow

/-- Claim C5: for a non-empty timeline, both snapshot writers replace
the single fixed-name CSV file with exactly the current entries in
ascending canonical-time order — a header row and one row per entry,
whatever the file held before — and a description containing a comma or
a quote is written quoted with its inner quotes doubled. -/
theorem c5_snapshot_overwrite (l : List LogEntry) (prior : Option String)
    (hne : l ≠ []) (hn : allNaive l = true) :
    appAutoSaveCsv l prior = some (appCsvContent l)
      ∧ appCsvContent l = "Timestamp,Severity,Description\r\n"
          ++ String.join ((insSortAsc keyNaive l).map appCsvRow)
      ∧ List.Perm (insSortAsc keyNaive l) l
      ∧ (insSortAsc keyNaive l).Sorted (fun a b => keyNaive a ≤ keyNaive b)
      ∧ webSaveLogsToFile l prior = some (webCsvContent l)
      ∧ webCsvContent l = "Timestamp,Severity,Description\n"
          ++ String.join ((insSortAsc keyNaive l).map webCsvRow)
      ∧ (∀ s : String, ',' ∈ s.data ∨ '"' ∈ s.data →
          appCsvField s = "\"" ++ dqS s ++ "\"") := by
  refine ⟨?_, ?_, insSortAsc_perm keyNaive l, insSortAsc_sorted keyNaive l,
    ?_, ?_, ?_⟩
  · simp [appAutoSaveCsv, hne]
  · rw [appCsvContent, sortAscL_naive l hn]
  · simp [webSaveLogsToFile, hne]
  · rw [webCsvContent, sortAscL_naive l hn]
  · intro s hs
    have hq : csvNeedsQuote s = true := by
      rcases hs with hs | hs
      · exact List.any_eq_true.mpr ⟨',', hs, by simp⟩
      · exact List.any_eq_true.mpr ⟨'"', hs, by simp⟩
    simp [appCsvField, hq]

/-- Witness for C5 on a timeline containing a description with both a
comma and quotes. -/
theorem c5_snapshot_overwrite_witness :
    appAutoSaveCsv [entryTricky, entryCrit] (some "stale snapshot")
        = some (appCsvContent [entryTricky, entryCrit])
      ∧ webSaveLogsToFile [entryTricky, entryCrit] (some "stale snapshot")
          = some (webCsvContent [entryTricky, entryCrit])
      ∧ appCsvField "evil, \"quoted\" payload"
          = "\"" ++ dqS "evil, \"quoted\" payload" ++ "\"" := by
  have h := c5_snapshot_overwrite [entryTricky, entryCrit]
    (some "stale snapshot") (by decide) (by decide)
  exact ⟨h.1, h.2.2.2.2.1,
    h.2.2.2.2.2.2 "evil, \"quoted\" payload" (Or.inl (by decide))⟩

/-- Counterexample to claim C6 as stated: the web snapshot-saving step
(`save_logs_to_file`) does not delete the snapshot when the timeline
has become empty — it returns `None` without touching the file, so a
stale snapshot survives an emptying deletion.  (Only the desktop
`auto_save_logs_to_csv`, and the web `/api/clear` route, delete it.) -/
theorem c6_web_keeps_stale_snapshot :
    webSaveLogsToFile [] (some "stale snapshot") = some "stale snapshot" := by
  decide

/-- Claim C6, amended: in the desktop application the snapshot-saving
step deletes any existing snapshot CSV when the timeline is empty and
writes the file otherwise, so after every desktop mutation the snapshot
file exists iff the timeline is non-empty; in the web application the
saving step leaves a prior snapshot untouched when the timeline is
empty. -/
theorem c6_snapshot_exists_iff_nonempty (l : List LogEntry)
    (prior : Option String) :
    (appAutoSaveCsv l prior).isSome = !l.isEmpty := by
  cases l <;> simp [appAutoSaveCsv]

/-- Counterexample to claim C7 as stated: the web insert also rejects a
non-blank description shorter than five characters, so failure is not
equivalent to a blank field, and a non-blank input is not always
appended. -/
theorem c7_web_rejects_short_description :
    webAddEntry "2024-01-15 10:00:00" "abc" "Info" [] sampleNow
        = .error "Description must be at least 5 characters long"
      ∧ webAddRoute "2024-01-15 10:00:00" "abc" "Info" [] sampleNow = []
      ∧ ("abc" : String) ≠ "" := by
  refine ⟨by decide, by decide, by decide⟩

/-- Claim C7, amended: the desktop insert fails exactly when the trimmed
timestamp or description is blank; the web insert fails exactly when one
of them is blank or the trimmed description is shorter than five
characters; a failed insert leaves the timeline unchanged, and a
successful one appends exactly the new entry at the end. -/
theorem c7_insert_validation (ts desc sev : String) (l : List LogEntry)
    (now : DT) :
    ((∃ msg, appAddLogEntry ts desc sev l now = .error msg)
        ↔ (⟨trimL ts.data⟩ : String) = "" ∨ (⟨trimL desc.data⟩ : String) = "")
      ∧ ((⟨trimL ts.data⟩ : String) = "" ∨ (⟨trimL desc.data⟩ : String) = "" →
          appAddRoute ts desc sev l now = l)
      ∧ ((⟨trimL ts.data⟩ : String) ≠ "" → (⟨trimL desc.data⟩ : String) ≠ "" →
          appAddRoute ts desc sev l now
            = l ++ [mkAppLogEntry ⟨trimL ts.data⟩ ⟨trimL desc.data⟩
                (severityFromLabel sev) now])
      ∧ ((∃ msg, webAddEntry ts desc sev l now = .error msg)
          ↔ (⟨trimL ts.data⟩ : String) = "" ∨ (⟨trimL desc.data⟩ : String) = ""
              ∨ (trimL desc.data).length < 5)
      ∧ ((⟨trimL ts.data⟩ : String) = "" ∨ (⟨trimL desc.data⟩ : String) = ""
            ∨ (trimL desc.data).length < 5 →
          webAddRoute ts desc sev l now = l)
      ∧ ((⟨trimL ts.data⟩ : String) ≠ "" → (⟨trimL desc.data⟩ : String) ≠ "" →
          ¬ (trimL desc.data).length < 5 →
          webAddRoute ts desc sev l now
            = l ++ [mkWebLogEntry ⟨trimL ts.data⟩ ⟨trimL desc.data⟩ sev now]) := by
  by_cases h1 : (⟨trimL ts.data⟩ : String) = "" <;>
    by_cases h2 : (⟨trimL desc.data⟩ : String) = "" <;>
    by_cases h3 : (trimL desc.data).length < 5 <;>
    simp [appAddLogEntry, appAddRoute, webAddEntry, webAddRoute, h1, h2, h3]

/-- Witness for C7: a valid desktop insert appends the entry, and the
web insert accepts a five-character description. -/
theorem c7_insert_validation_witness :
    appAddRoute "2024-01-15 10:00:00" "valid description" "🔵 Low" [] sampleNow
        = [] ++ [mkAppLogEntry "2024-01-15 10:00:00" "valid description"
            (severityFromLabel "🔵 Low") sampleNow]
      ∧ webAddRoute "2024-01-15 10:00:00" "valid" "Low" [] sampleNow
          = [] ++ [mkWebLogEntry "2024-01-15 10:00:00" "valid" "Low" sampleNow] :=
  ⟨(c7_insert_validation "2024-01-15 10:00:00" "valid description" "🔵 Low" []
      sampleNow).2.2.1 (by decide) (by decide),
   (c7_insert_validation "2024-01-15 10:00:00" "valid" "Low" []
      sampleNow).2.2.2.2.2 (by decide) (by decide) (by decide)⟩

/-- The report content is the verbatim analysis text enclosed in the
fixed banner. -/
theorem aiContent_eq (name text : String) (now : DT) :
    aiContent name text now = aiBannerPre name now ++ text ++ aiBannerPost := by
  have h : (aiContent name text now).data
      = (aiBannerPre name now ++ text ++ aiBannerPost).data := by
    simp [aiContent, aiBannerPre, aiBannerPost, String.intercalate,
      String.intercalate.go, String.data_append, List.append_assoc]
  exact congrArg String.mk h

/-- Appending any of the three trailing-offset forms to any string is
undone exactly by the stripper: the regex is anchored at the end of the
input, so it removes precisely the appended annotation. -/
theorem stripTzL_append (b off : List Char) (hoff : isTzSuffixL off = true) :
    stripTzL (b ++ off) = b := by
  simp only [isTzSuffixL, Bool.or_eq_true, beq_iff_eq] at hoff
  rcases hoff with (hz | h6) | h5
  · subst hz
    have hlast : (b ++ ['Z']).getLast? = some 'Z' := List.getLast?_concat b
    simp [stripTzL, hlast, List.take_left]
  · rcases off with _ | ⟨s, _ | ⟨a, _ | ⟨c2, _ | ⟨c3, _ | ⟨d, _ | ⟨e, _ | ⟨x, xs⟩⟩⟩⟩⟩⟩⟩ <;>
      simp only [isOff6, Bool.false_eq_true] at h6
    simp only [Bool.and_eq_true, Bool.or_eq_true, decide_eq_true_eq] at h6
    obtain ⟨⟨⟨⟨⟨hs, ha⟩, hc2⟩, hc3⟩, hd⟩, he⟩ := h6
    have hez : e ≠ 'Z' := by
      intro hcontra
      rw [hcontra] at he
      exact absurd he (by decide)
    have hlast : (b ++ [s, a, c2, c3, d, e]).getLast? = some e := by
      rw [show b ++ [s, a, c2, c3, d, e] = (b ++ [s, a, c2, c3, d]) ++ [e] by simp]
      exact List.getLast?_concat _
    have hcond : ¬ (b ++ [s, a, c2, c3, d, e]).getLast? = some 'Z' := by
      rw [hlast]
      intro hcontra
      exact hez (Option.some.inj hcontra)
    have hlen : (b ++ [s, a, c2, c3, d, e]).length = b.length + 6 := by simp
    have hdrop : (b ++ [s, a, c2, c3, d, e]).drop ((b ++ [s, a, c2, c3, d, e]).length - 6)
        = [s, a, c2, c3, d, e] := by
      rw [hlen, Nat.add_sub_cancel, List.drop_left]
    have h6' : isOff6 [s, a, c2, c3, d, e] = true := by
      simp [isOff6, hs, ha, hc2, hc3, hd, he]
    simp only [stripTzL]
    rw [if_neg hcond, hdrop, if_pos h6', hlen, Nat.add_sub_cancel, List.take_left]
  · rcases off with _ | ⟨s, _ | ⟨a, _ | ⟨c2, _ | ⟨d, _ | ⟨e, _ | ⟨x, xs⟩⟩⟩⟩⟩⟩ <;>
      simp only [isOff5, Bool.false_eq_true] at h5
    simp only [Bool.and_eq_true, Bool.or_eq_true, decide_eq_true_eq] at h5
    obtain ⟨⟨⟨⟨hs, ha⟩, hc2⟩, hd⟩, he⟩ := h5
    have hez : e ≠ 'Z' := by
      intro hcontra
      rw [hcontra] at he
      exact absurd he (by decide)
    have hc2' : decide (c2 = ':') = false := by
      cases hdec : decide (c2 = ':') with
      | false => rfl
      | true =>
          rw [of_decide_eq_true hdec] at hc2
          exact absurd hc2 (by decide)
    have hlast : (b ++ [s, a, c2, d, e]).getLast? = some e := by
      rw [show b ++ [s, a, c2, d, e] = (b ++ [s, a, c2, d]) ++ [e] by simp]
      exact List.getLast?_concat _
    have hcond : ¬ (b ++ [s, a, c2, d, e]).getLast? = some 'Z' := by
      rw [hlast]
      intro hcontra
      exact hez (Option.some.inj hcontra)
    have hlen : (b ++ [s, a, c2, d, e]).length = b.length + 5 := by simp
    have hwin : isOff6 ((b ++ [s, a, c2, d, e]).drop
        ((b ++ [s, a, c2, d, e]).length - 6)) = false := by
      rcases List.eq_nil_or_concat b with hb | ⟨b', c, hb⟩
      · subst hb
        simp [isOff6]
      · subst hb
        simp only [List.concat_eq_append]
        have hlen' : (b' ++ [c] ++ [s, a, c2, d, e]).length - 6 = b'.length := by
          simp
        rw [hlen', List.append_assoc, List.drop_left, List.singleton_append]
        simp [isOff6, hc2']
    have hdrop : (b ++ [s, a, c2, d, e]).drop ((b ++ [s, a, c2, d, e]).length - 5)
        = [s, a, c2, d, e] := by
      rw [hlen, Nat.add_sub_cancel, List.drop_left]
    have h5' : isOff5 [s, a, c2, d, e] = true := by
      simp [isOff5, hs, ha, hc2, hd, he]
    simp only [stripTzL]
    rw [if_neg hcond, hwin, hdrop, if_pos h5', hlen, Nat.add_sub_cancel,
      List.take_left]
    simp

/-- Comparing a naive datetime with itself yields equality. -/
theorem dtCompare_self (a : DT) : dtCompare a a = .eq := by
  have hc : ∀ n : Nat, compare n n = Ordering.eq :=
    fun n => Nat.compare_eq_eq.mpr rfl
  simp [dtCompare, hc, Ordering.then]

/-- Counterexample to claim C8 as stated: the web fallback parses the
timezone offset into an aware datetime instead of discarding it, so two
strings differing only by a trailing `+05:00` produce different
canonical times, and Python comparing the naive one with the aware one
raises `TypeError` (modelled by `pyCompare` returning `none`). -/
theorem c8_web_applies_offset :
    (webParseTimestamp "2024-01-15 14:30:25" sampleNow).1
        ≠ (webParseTimestamp "2024-01-15 14:30:25+05:00" sampleNow).1
      ∧ pyCompare (webParseTimestamp "2024-01-15 14:30:25" sampleNow).1
          (webParseTimestamp "2024-01-15 14:30:25+05:00" sampleNow).1 = none := by
  refine ⟨by decide, by decide⟩

/-- Claim C8, amended: in the desktop implementation the fallback really
does discard trailing timezone annotations — for a base string that no
format matches, whose stripper-normal form ISO-parses to a naive
instant, appending `Z`, `±HH:MM` or `±HHMM` yields the same naive
canonical time, and comparing the two results raises nothing.  The web
implementation instead applies the offset (see the counterexample). -/
theorem c8_offsets_discarded (b off : List Char) (now v : DT)
    (hoff : isTzSuffixL off = true)
    (htrim1 : trimL b = b) (htrim2 : trimL (b ++ off) = b ++ off)
    (h1 : tryFormats appFormats b = none)
    (h2 : tryFormats appFormats (b ++ off) = none)
    (h3 : stripTzL b = b)
    (h4 : pyFromIso (replaceTL b) = some ⟨v, none⟩) :
    appParseCore b now = (⟨v, none⟩, false)
      ∧ appParseCore (b ++ off) now = (⟨v, none⟩, false)
      ∧ pyCompare (appParseCore b now).1 (appParseCore (b ++ off) now).1
          = some .eq := by
  have e1 : appParseCore b now = (⟨v, none⟩, false) := by
    simp [appParseCore, htrim1, h1, h3, h4]
  have e2 : appParseCore (b ++ off) now = (⟨v, none⟩, false) := by
    simp [appParseCore, htrim2, h2, stripTzL_append b off hoff, h4]
  refine ⟨e1, e2, ?_⟩
  rw [e1, e2]
  simp [pyCompare, dtCompare_self]

/-- Witness for C8: `"2024-01-15 14:30"` (a format none of the desktop
patterns match) and the same string with `"+05:00"` appended normalize
to the same naive instant. -/
theorem c8_offsets_discarded_witness :
    appParseCore ("2024-01-15 14:30".data) sampleNow
        = (⟨⟨2024, 1, 15, 14, 30, 0, 0⟩, none⟩, false)
      ∧ appParseCore ("2024-01-15 14:30".data ++ "+05:00".data) sampleNow
          = (⟨⟨2024, 1, 15, 14, 30, 0, 0⟩, none⟩, false) := by
  have h := c8_offsets_discarded ("2024-01-15 14:30".data) ("+05:00".data)
    sampleNow ⟨2024, 1, 15, 14, 30, 0, 0⟩ (by decide) (by decide) (by decide)
    (by decide) (by decide) (by decide) (by decide)
  exact ⟨h.1, h.2.1⟩

/-- Writing a file makes its content readable at its path. -/
theorem fsGet_fsSet_self (fs : List (String × String)) (p v : String) :
    fsGet (fsSet fs p v) p = some v := by
  induction fs with
  | nil => simp [fsSet, fsGet]
  | cons kv rest ih =>
      obtain ⟨q, w⟩ := kv
      by_cases h : q = p
      · simp [fsSet, fsGet, h]
      · simp [fsSet, fsGet, h, ih]

/-- Writing a file leaves every other path untouched. -/
theorem fsGet_fsSet_other (fs : List (String × String)) (p v q : String)
    (h : q ≠ p) : fsGet (fsSet fs p v) q = fsGet fs q := by
  induction fs with
  | nil =>
      simp only [fsSet, fsGet]
      rw [if_neg (fun hpq : p = q => h hpq.symm)]
  | cons kv rest ih =>
      obtain ⟨r, w⟩ := kv
      by_cases hr : r = p
      · subst hr
        simp only [fsSet, if_pos rfl, fsGet]
        rw [if_neg (fun hrq : r = q => h hrq.symm),
          if_neg (fun hrq : r = q => h hrq.symm)]
      · simp only [fsSet, if_neg hr, fsGet]
        by_cases hq : r = q
        · rw [if_pos hq, if_pos hq]
        · rw [if_neg hq, if_neg hq, ih]

/-- Counterexample to claim C9 as stated: the report filename has
one-second granularity, so a second `append_report` within the same
wall-clock second reuses the filename and overwrites the first report
(its content is replaced by the banner-wrapped second text). -/
theorem c9_same_second_overwrites :
    fsGet (saveAiAnalysisToFile "Case" "second report" sampleNow
        (saveAiAnalysisToFile "Case" "first report" sampleNow []).2).2
        (aiFileName sampleNow)
        = some (aiContent "Case" "second report" sampleNow)
      ∧ fsGet (saveAiAnalysisToFile "Case" "first report" sampleNow []).2
          (aiFileName sampleNow)
          = some (aiContent "Case" "first report" sampleNow)
      ∧ aiContent "Case" "second report" sampleNow
          ≠ aiContent "Case" "first report" sampleNow := by
  refine ⟨by decide, by decide, by decide⟩

/-- Claim C9, amended: for non-empty text, `append_report` writes the
text verbatim inside the fixed banner to `ai_analysis_<YYYYMMDD_HHMMSS>.txt`,
returns that path, and leaves every other file — in particular every
report written at a different generation second — untouched; only a
second call within the same wall-clock second reuses the name and
overwrites (see the counterexample). -/
theorem c9_append_report (name text : String) (now : DT)
    (fs : List (String × String)) (htext : text ≠ "") :
    (saveAiAnalysisToFile name text now fs).1 = some (aiFileName now)
      ∧ fsGet (saveAiAnalysisToFile name text now fs).2 (aiFileName now)
          = some (aiContent name text now)
      ∧ aiContent name text now = aiBannerPre name now ++ text ++ aiBannerPost
      ∧ (∀ p, p ≠ aiFileName now →
          fsGet (saveAiAnalysisToFile name text now fs).2 p = fsGet fs p) := by
  refine ⟨?_, ?_, aiContent_eq name text now, ?_⟩
  · simp [saveAiAnalysisToFile, htext]
  · simp [saveAiAnalysisToFile, htext, fsGet_fsSet_self]
  · intro p hp
    simp [saveAiAnalysisToFile, htext, fsGet_fsSet_other _ _ _ _ hp]

/-- Witness for C9: one report written into a directory already holding
an older report from a different second; the old report survives. -/
theorem c9_append_report_witness :
    (saveAiAnalysisToFile "Case" "fresh analysis" sampleNow
        [("ai_analysis_20250101_000000.txt", "old report")]).1
        = some (aiFileName sampleNow)
      ∧ fsGet (saveAiAnalysisToFile "Case" "fresh analysis" sampleNow
          [("ai_analysis_20250101_000000.txt", "old report")]).2
          "ai_analysis_20250101_000000.txt" = some "old report" := by
  have h := c9_append_report "Case" "fresh analysis" sampleNow
    [("ai_analysis_20250101_000000.txt", "old report")] (by decide)
  refine ⟨h.1, ?_⟩
  rw [h.2.2.2 "ai_analysis_20250101_000000.txt" (by decide)]
  decide

/-- Claim C10: the desktop delete removes at most one entry — exactly
the first (lowest-index) stored entry whose timestamp and description
both equal the selected row's values — and removes nothing when no entry
matches; the function depends only on the selected row's two displayed
values, so selecting either of two duplicate rows removes the
earliest-stored matching entry. -/
theorem c10_delete_selected_entry (ts desc : String) (l l₁ l₂ : List LogEntry)
    (e : LogEntry) :
    (deleteFirstMatch ts desc l).length ≤ l.length
      ∧ l.length ≤ (deleteFirstMatch ts desc l).length + 1
      ∧ ((∀ x ∈ l, ¬(x.timestamp = ts ∧ x.description = desc)) →
          deleteFirstMatch ts desc l = l)
      ∧ (l = l₁ ++ e :: l₂ →
          (∀ x ∈ l₁, ¬(x.timestamp = ts ∧ x.description = desc)) →
          e.timestamp = ts → e.description = desc →
          deleteFirstMatch ts desc l = l₁ ++ l₂) := by
  refine ⟨?_, ?_, ?_, ?_⟩
  · induction l with
    | nil => simp [deleteFirstMatch]
    | cons x xs ih =>
        by_cases h : x.timestamp = ts ∧ x.description = desc
        · simp [deleteFirstMatch, h]
        · simp only [deleteFirstMatch, if_neg h, List.length_cons]
          exact Nat.succ_le_succ ih
  · induction l with
    | nil => simp [deleteFirstMatch]
    | cons x xs ih =>
        by_cases h : x.timestamp = ts ∧ x.description = desc
        · simp [deleteFirstMatch, h]
        · simp only [deleteFirstMatch, if_neg h, List.length_cons]
          exact Nat.succ_le_succ ih
  · intro hnone
    induction l with
    | nil => rfl
    | cons x xs ih =>
        have hx : ¬(x.timestamp = ts ∧ x.description = desc) :=
          hnone x (List.mem_cons_self x xs)
        rw [deleteFirstMatch, if_neg hx,
          ih (fun y hy => hnone y (List.mem_cons_of_mem x hy))]
  · intro hsplit hskip hts hdesc
    subst hsplit
    induction l₁ with
    | nil =>
        simp only [List.nil_append]
        rw [deleteFirstMatch, if_pos ⟨hts, hdesc⟩]
    | cons x xs ih =>
        have hx : ¬(x.timestamp = ts ∧ x.description = desc) :=
          hskip x (List.mem_cons_self x xs)
        simp only [List.cons_append]
        rw [deleteFirstMatch, if_neg hx,
          ih (fun y hy => hskip y (List.mem_cons_of_mem x hy))]

/-- Witness for C10 on a timeline holding two entries with identical
timestamp and description: the earliest-stored one is removed. -/
theorem c10_delete_selected_entry_witness :
    deleteFirstMatch "2024-01-15 10:00:00" "first observation"
        [entryLow, entryCrit, entryLow] = [entryCrit, entryLow] :=
  (c10_delete_selected_entry "2024-01-15 10:00:00" "first observation"
      [entryLow, entryCrit, entryLow] [] [entryCrit, entryLow]
      entryLow).2.2.2 rfl (by decide) (by decide) (by decide)
